import Mathlib

/-!
Verification of the rendering core of the `tui-rs-revival` repository.

The Rust source is embedded shallowly:

* `u16` values become `Nat` with the bound 65535 made explicit where the
  source relies on it; `i32` values become `Int` with the bounds `-2^31`
  and `2^31 - 1` made explicit.
* `saturating_add` / `saturating_sub` / `clamp` are spelled out with
  `max` / `min` / truncated subtraction.
* Operations whose Rust counterpart can panic are given a second,
  `Option`-returning embedding (`none` exactly when the Rust code would
  panic) next to the total function actually used.
-/

namespace TuiRs

/-- `u16::MAX`. -/
def U16_MAX : Nat := 65535

/-- `i32::MIN` (`-2^31`) as an integer. -/
def I32_MIN : Int := -2147483648

/-- `i32::MAX` (`2^31 - 1`) as an integer. -/
def I32_MAX : Int := 2147483647

/-- Saturation of an unbounded integer to the `i32` range, the result of
`i32::saturating_add` / `i32::saturating_sub` applied to the exact sum or
difference. -/
def i32Sat (z : Int) : Int := max I32_MIN (min I32_MAX z)

/-- Rust `Ord::clamp lo hi` on integers (defined for `lo ≤ hi`, which holds at
every call site embedded here because the lower bound is `0` and the upper
bound is a `Nat` cast). -/
def clampInt (lo hi z : Int) : Int := max lo (min hi z)

/-- `layout::Rect`: `(x, y, width, height)`, all `u16` in the source, embedded
as `Nat` fields; `Rect.Valid` records the `u16` range. -/
structure Rect where
  x : Nat
  y : Nat
  width : Nat
  height : Nat
  deriving Repr, DecidableEq

/-- All four fields fit in `u16`, which the Rust type system guarantees. -/
def Rect.Valid (r : Rect) : Prop :=
  r.x ≤ U16_MAX ∧ r.y ≤ U16_MAX ∧ r.width ≤ U16_MAX ∧ r.height ≤ U16_MAX

instance (r : Rect) : Decidable r.Valid := by unfold Rect.Valid; infer_instance

/-- `layout::Offset`: a signed 32-bit displacement, embedded with `Int`
fields; `Offset.Valid` records the `i32` range. -/
structure Offset where
  x : Int
  y : Int
  deriving Repr, DecidableEq

/-- Both components fit in `i32`, which the Rust type system guarantees. -/
def Offset.Valid (o : Offset) : Prop :=
  I32_MIN ≤ o.x ∧ o.x ≤ I32_MAX ∧ I32_MIN ≤ o.y ∧ o.y ≤ I32_MAX

instance (o : Offset) : Decidable o.Valid := by unfold Offset.Valid; infer_instance

/-- `Offset::ZERO`. -/
def Offset.ZERO : Offset := ⟨0, 0⟩

/-- `Offset::MIN`: both components `i32::MIN`. -/
def Offset.MIN : Offset := ⟨I32_MIN, I32_MIN⟩

/-- `Offset::MAX`: both components `i32::MAX`. -/
def Offset.MAX : Offset := ⟨I32_MAX, I32_MAX⟩

/-- `layout::Size`: `(width, height)`, both `u16`. -/
structure Size where
  width : Nat
  height : Nat
  deriving Repr, DecidableEq

/-- Both fields fit in `u16`. -/
def Size.Valid (s : Size) : Prop := s.width ≤ U16_MAX ∧ s.height ≤ U16_MAX

/-- `Size::ZERO`. -/
def Size.ZERO : Size := ⟨0, 0⟩

/-- `impl Neg for Offset` (`rect/ops.rs` lines 6-20): componentwise `i32`
negation.  The Rust operator panics on overflow (documented: when `x` or `y`
is `i32::MIN`); this embedding returns `none` exactly when a component's exact
negation falls outside the `i32` range. -/
def Offset.negChecked (o : Offset) : Option Offset :=
  if I32_MIN ≤ -o.x ∧ -o.x ≤ I32_MAX ∧ I32_MIN ≤ -o.y ∧ -o.y ≤ I32_MAX then
    some ⟨-o.x, -o.y⟩
  else
    none

/-- `impl Add<Offset> for Rect` (`rect/ops.rs` lines 22-36):
`max_x = u16::MAX - width`, `max_y = u16::MAX - height` (`u16` subtraction,
which cannot underflow), then
`i32::from(x).saturating_add(offset.x).clamp(0, max_x) as u16` and likewise
for `y`; width and height are copied. -/
def Rect.addOffset (r : Rect) (o : Offset) : Rect :=
  let maxX : Int := ((U16_MAX - r.width : Nat) : Int)
  let maxY : Int := ((U16_MAX - r.height : Nat) : Int)
  { x := (clampInt 0 maxX (i32Sat ((r.x : Int) + o.x))).toNat
    y := (clampInt 0 maxY (i32Sat ((r.y : Int) + o.y))).toNat
    width := r.width
    height := r.height }

/-- `impl Sub<Offset> for Rect` (`rect/ops.rs` lines 50-65): as `addOffset`
but with `saturating_sub` (the source notes it cannot delegate to negation
because `Offset::MIN` would overflow). -/
def Rect.subOffset (r : Rect) (o : Offset) : Rect :=
  let maxX : Int := ((U16_MAX - r.width : Nat) : Int)
  let maxY : Int := ((U16_MAX - r.height : Nat) : Int)
  { x := (clampInt 0 maxX (i32Sat ((r.x : Int) - o.x))).toNat
    y := (clampInt 0 maxY (i32Sat ((r.y : Int) - o.y))).toNat
    width := r.width
    height := r.height }

/-- `impl Add<Size> for Rect` (`rect/ops.rs` lines 87-105):
`width.saturating_add(size.width).min(u16::MAX - x)` and likewise for the
height; position is copied.  `u16` saturating addition is
`min (a + b) U16_MAX`. -/
def Rect.addSize (r : Rect) (s : Size) : Rect :=
  let maxWidth := U16_MAX - r.x
  let maxHeight := U16_MAX - r.y
  { x := r.x
    y := r.y
    width := min (min (r.width + s.width) U16_MAX) maxWidth
    height := min (min (r.height + s.height) U16_MAX) maxHeight }

/-- `impl Sub<Size> for Rect` (`rect/ops.rs` lines 121-134):
`width.saturating_sub(size.width)` and likewise for the height (truncated
`Nat` subtraction is exactly `u16::saturating_sub`); position is copied. -/
def Rect.subSize (r : Rect) (s : Size) : Rect :=
  { x := r.x
    y := r.y
    width := r.width - s.width
    height := r.height - s.height }

/-- `impl AddAssign<Offset> for Rect` (`rect/ops.rs` lines 67-75):
`*self = *self + offset`; in-place mutation is embedded as state passing. -/
def Rect.addAssignOffset (r : Rect) (o : Offset) : Rect := r.addOffset o

/-- `impl SubAssign<Offset> for Rect` (`rect/ops.rs` lines 77-85):
`*self = *self - offset`. -/
def Rect.subAssignOffset (r : Rect) (o : Offset) : Rect := r.subOffset o

/-- `impl AddAssign<Size> for Rect` (`rect/ops.rs` lines 136-146):
`*self = *self + size`. -/
def Rect.addAssignSize (r : Rect) (s : Size) : Rect := r.addSize s

/-- `impl SubAssign<Size> for Rect` (`rect/ops.rs` lines 148-155):
`*self = *self - size`. -/
def Rect.subAssignSize (r : Rect) (s : Size) : Rect := r.subSize s

/-- Rust `Ord::clamp` panics when `lo > hi`; this checked embedding of the
clamp used by the offset arithmetic returns `none` in that case, so that
"`Rect` ± `Offset` never panics" is a theorem rather than an artifact of the
total embedding. -/
def clampIntChecked (lo hi z : Int) : Option Int :=
  if lo ≤ hi then some (clampInt lo hi z) else none

/-- `Rect + Offset` with every potentially panicking step (the two clamps)
made explicit; `none` would mean the Rust code panics. -/
def Rect.addOffsetChecked (r : Rect) (o : Offset) : Option Rect := do
  let maxX : Int := ((U16_MAX - r.width : Nat) : Int)
  let maxY : Int := ((U16_MAX - r.height : Nat) : Int)
  let x ← clampIntChecked 0 maxX (i32Sat ((r.x : Int) + o.x))
  let y ← clampIntChecked 0 maxY (i32Sat ((r.y : Int) + o.y))
  pure { x := x.toNat, y := y.toNat, width := r.width, height := r.height }

/-- `Rect - Offset` with the potentially panicking clamps made explicit. -/
def Rect.subOffsetChecked (r : Rect) (o : Offset) : Option Rect := do
  let maxX : Int := ((U16_MAX - r.width : Nat) : Int)
  let maxY : Int := ((U16_MAX - r.height : Nat) : Int)
  let x ← clampIntChecked 0 maxX (i32Sat ((r.x : Int) - o.x))
  let y ← clampIntChecked 0 maxY (i32Sat ((r.y : Int) - o.y))
  pure { x := x.toNat, y := y.toNat, width := r.width, height := r.height }

/-- Helper: a concrete `Rect` literal, mirroring `Rect::new`. -/
def Rect.new (x y width height : Nat) : Rect := ⟨x, y, width, height⟩

end TuiRs

namespace TuiRs

/-- **C2** — `Rect(3,4,5,6) + Offset::MIN` clamps to `Rect(0,0,5,6)` and
`Rect(3,4,5,6) + Offset::MAX` clamps to `Rect(65530,65529,5,6)`: adding an
offset clamps the position into the `u16` coordinate space and leaves width
and height unchanged. -/
theorem c2_add_offset_saturates :
    (Rect.new 3 4 5 6).addOffset Offset.MIN = Rect.new 0 0 5 6 ∧
    (Rect.new 3 4 5 6).addOffset Offset.MAX = Rect.new 65530 65529 5 6 := by
  constructor <;> decide

end TuiRs

namespace TuiRs

/-- **C3 counterexample** — the zero-offset identity does not hold for every
`u16` rect: `Rect(1,0,65535,0) + Offset::ZERO` clamps `x` down to
`u16::MAX - width = 0`, so the claim's "with no precondition on r" fails. -/
theorem c3_counterexample :
    (Rect.new 1 0 65535 0).addOffset Offset.ZERO = Rect.new 0 0 65535 0 ∧
    ¬ (Rect.new 1 0 65535 0).addOffset Offset.ZERO = Rect.new 1 0 65535 0 := by
  constructor <;> decide

/-- **C3 (amended)** — subtracting `Size::ZERO` is an identity for every
rect with no precondition; and for every rect whose far edges stay inside
the `u16` coordinate space (`x + width ≤ 65535` and `y + height ≤ 65535`,
the spec's own `Rect` invariant), adding or subtracting `Offset::ZERO` and
adding `Size::ZERO` also return the rect unchanged. -/
theorem c3_zero_identities (r : Rect) :
    r.subSize Size.ZERO = r ∧
    (r.x + r.width ≤ U16_MAX → r.y + r.height ≤ U16_MAX →
      r.addOffset Offset.ZERO = r ∧ r.subOffset Offset.ZERO = r ∧
      r.addSize Size.ZERO = r) := by
  obtain ⟨x, y, w, h⟩ := r
  constructor
  · simp [Rect.subSize, Size.ZERO]
  · intro hx hy
    simp only [U16_MAX] at hx hy
    refine ⟨?_, ?_, ?_⟩ <;>
      simp only [Rect.addOffset, Rect.subOffset, Rect.addSize,
        Offset.ZERO, Size.ZERO, i32Sat, clampInt, I32_MIN, I32_MAX, U16_MAX,
        Rect.mk.injEq] <;>
      refine ⟨?_, ?_, ?_, ?_⟩ <;> first | trivial | omega

/-- **C3 witness** — the amended identities evaluated at `Rect(3,4,5,6)`,
discharging the far-edge hypotheses of the conditional part there. -/
theorem c3_zero_identities_witness :
    (Rect.new 3 4 5 6).subSize Size.ZERO = Rect.new 3 4 5 6 ∧
    (Rect.new 3 4 5 6).addOffset Offset.ZERO = Rect.new 3 4 5 6 := by
  have h := c3_zero_identities (Rect.new 3 4 5 6)
  exact ⟨h.1, (h.2 (by decide) (by decide)).1⟩

/-- **C4** — negating an offset fails (the Rust operator panics) exactly when
a component is `i32::MIN`; when both components differ from `i32::MIN`
negation succeeds and is componentwise; and `Rect` ± `Offset` never reach a
panicking step (their checked embeddings always return `some`, equal to the
total functions; the `Size` operations use only saturating `u16` arithmetic
with no fallible step at all). -/
theorem c4_neg_panics_iff (o : Offset) (ho : o.Valid) :
    (Offset.negChecked o = none ↔ o.x = I32_MIN ∨ o.y = I32_MIN) ∧
    (o.x ≠ I32_MIN → o.y ≠ I32_MIN → Offset.negChecked o = some ⟨-o.x, -o.y⟩) ∧
    (∀ r : Rect, Rect.addOffsetChecked r o = some (Rect.addOffset r o)) ∧
    (∀ r : Rect, Rect.subOffsetChecked r o = some (Rect.subOffset r o)) := by
  obtain ⟨hx0, hx1, hy0, hy1⟩ := ho
  simp only [I32_MIN, I32_MAX] at hx0 hx1 hy0 hy1
  refine ⟨?_, ?_, ?_, ?_⟩
  · unfold Offset.negChecked
    split
    · rename_i hcond
      simp only [I32_MIN, I32_MAX] at hcond
      constructor
      · intro h
        exact absurd h (by simp)
      · intro h
        exfalso
        simp only [I32_MIN] at h
        omega
    · rename_i hcond
      constructor
      · intro _
        by_contra hno
        push_neg at hno
        simp only [I32_MIN] at hno
        refine hcond ?_
        simp only [I32_MIN, I32_MAX]
        exact ⟨by omega, by omega, by omega, by omega⟩
      · intro _
        rfl
  · intro hx hy
    simp only [I32_MIN] at hx hy
    unfold Offset.negChecked
    split
    · rfl
    · rename_i hcond
      exfalso
      refine hcond ?_
      simp only [I32_MIN, I32_MAX]
      exact ⟨by omega, by omega, by omega, by omega⟩
  · intro r
    unfold Rect.addOffsetChecked Rect.addOffset clampIntChecked
    simp [Int.natCast_nonneg, Option.pure_def]
  · intro r
    unfold Rect.subOffsetChecked Rect.subOffset clampIntChecked
    simp [Int.natCast_nonneg, Option.pure_def]

/-- **C4 witness** — the theorem applied at the concrete offset `(5, -7)`. -/
theorem c4_neg_panics_iff_witness :
    Offset.negChecked ⟨5, -7⟩ = some ⟨-5, 7⟩ ∧
    Rect.addOffsetChecked (Rect.new 3 4 5 6) ⟨5, -7⟩ =
      some ((Rect.new 3 4 5 6).addOffset ⟨5, -7⟩) := by
  have h := c4_neg_panics_iff ⟨5, -7⟩ (by decide)
  refine ⟨?_, h.2.2.1 (Rect.new 3 4 5 6)⟩
  have h2 := h.2.1 (by decide) (by decide)
  simpa using h2

/-- **C5** — the in-place operators delegate to the value-returning operators
(`*self = *self + rhs` in the source), so they agree exactly for every rect,
offset and size. -/
theorem c5_assign_matches_value_ops :
    (∀ (r : Rect) (o : Offset),
      r.addAssignOffset o = r.addOffset o ∧ r.subAssignOffset o = r.subOffset o) ∧
    (∀ (r : Rect) (s : Size),
      r.addAssignSize s = r.addSize s ∧ r.subAssignSize s = r.subSize s) :=
  ⟨fun _ _ => ⟨rfl, rfl⟩, fun _ _ => ⟨rfl, rfl⟩⟩

/-- **C6** — translation by an offset never changes width or height, and
resizing by a size never changes x or y, for every rect, offset and size. -/
theorem c6_frame_conditions :
    (∀ (r : Rect) (o : Offset),
      (r.addOffset o).width = r.width ∧ (r.addOffset o).height = r.height ∧
      (r.subOffset o).width = r.width ∧ (r.subOffset o).height = r.height) ∧
    (∀ (r : Rect) (s : Size),
      (r.addSize s).x = r.x ∧ (r.addSize s).y = r.y ∧
      (r.subSize s).x = r.x ∧ (r.subSize s).y = r.y) :=
  ⟨fun _ _ => ⟨rfl, rfl, rfl, rfl⟩, fun _ _ => ⟨rfl, rfl, rfl, rfl⟩⟩

end TuiRs

namespace TuiRs

/-!
Embedding of `widgets/scrollbar.rs`.

Only the fields the verified computations read are embedded (symbol and
orientation fields); the `Style` fields never influence geometry.  `usize`
is embedded as `Nat` with the saturation of `saturating_add` made explicit
against `USIZE_MAX`.  The `f64` arithmetic inside `get_thumb_start_end` is
embedded as exact rational arithmetic: at every input where the theorems
below evaluate it, each intermediate `f64` value is a small dyadic rational
(0.5, 5.0, ...) that `f64` represents exactly, so the rational model and
the floating-point computation agree there.
-/

/-- `usize::MAX` on a 64-bit target. -/
def USIZE_MAX : Nat := 18446744073709551615

/-- `usize::saturating_add`. -/
def usizeSatAdd (a b : Nat) : Nat := min (a + b) USIZE_MAX

/-- `ScrollDirection` (`scrollbar.rs` lines 16-22). -/
inductive ScrollDirection where
  | Forward
  | Backward
  deriving Repr, DecidableEq

/-- `ScrollbarState` (`scrollbar.rs` lines 51-58): all three fields `usize`. -/
structure ScrollbarState where
  content_length : Nat
  position : Nat
  viewport_content_length : Nat
  deriving Repr, DecidableEq

/-- `ScrollbarState::prev` (lines 104-107): `position.saturating_sub(1)`. -/
def ScrollbarState.prev (s : ScrollbarState) : ScrollbarState :=
  { s with position := s.position - 1 }

/-- `ScrollbarState::next` (lines 109-115):
`position.saturating_add(1).min(content_length.saturating_sub(1))`. -/
def ScrollbarState.next (s : ScrollbarState) : ScrollbarState :=
  { s with position := min (usizeSatAdd s.position 1) (s.content_length - 1) }

/-- `ScrollbarState::first` (lines 117-120): `position = 0`. -/
def ScrollbarState.first (s : ScrollbarState) : ScrollbarState :=
  { s with position := 0 }

/-- `ScrollbarState::last` (lines 122-125):
`position = content_length.saturating_sub(1)`. -/
def ScrollbarState.last (s : ScrollbarState) : ScrollbarState :=
  { s with position := s.content_length - 1 }

/-- `ScrollbarState::scroll` (lines 127-137): dispatches to `next` for
`Forward` and `prev` for `Backward`. -/
def ScrollbarState.scroll (s : ScrollbarState) : ScrollDirection → ScrollbarState
  | ScrollDirection.Forward => s.next
  | ScrollDirection.Backward => s.prev

/-- `ScrollbarOrientation` (`scrollbar.rs` lines 149-160). -/
inductive ScrollbarOrientation where
  | VerticalRight
  | VerticalLeft
  | HorizontalBottom
  | HorizontalTop
  deriving Repr, DecidableEq

/-- The geometry-bearing fields of `Scrollbar` (`scrollbar.rs` lines
215-226); the `Style` fields are omitted because no embedded computation
reads them. -/
structure Scrollbar where
  orientation : ScrollbarOrientation
  thumb_symbol : String
  track_symbol : Option String
  begin_symbol : Option String
  end_symbol : Option String
  deriving Repr, DecidableEq

/-- `Scrollbar::is_vertical` (lines 442-447). -/
def Scrollbar.is_vertical (sb : Scrollbar) : Bool :=
  match sb.orientation with
  | ScrollbarOrientation.VerticalRight => true
  | ScrollbarOrientation.VerticalLeft => true
  | ScrollbarOrientation.HorizontalBottom => false
  | ScrollbarOrientation.HorizontalTop => false

/-- The tuple `(track_start, track_end, track_size, viewport_size)` computed
by `get_track_info`, named for readability. -/
structure TrackInfo where
  track_start : Nat
  track_end : Nat
  track_size : Nat
  viewport_size : Nat
  deriving Repr, DecidableEq

/-- `Scrollbar::get_track_info` (lines 449-475).  `s.len()` is the UTF-8
byte length of the symbol, cast `as u16` (hence the `% 65536`);
`saturating_add(1)` and `saturating_sub` are spelled out on `Nat`.  The
initial `area.y + area.height.saturating_sub(1)` is a plain `u16` addition;
it is embedded as the mathematical sum (it only overflows for areas far
outside any evaluated here). -/
def Scrollbar.get_track_info (sb : Scrollbar) (area : Rect) : TrackInfo :=
  let ti : TrackInfo :=
    if sb.is_vertical then
      ⟨area.y, area.y + (area.height - 1), area.height, area.height⟩
    else
      ⟨area.x, area.x + (area.width - 1), area.width, area.width⟩
  let ti : TrackInfo :=
    match sb.begin_symbol with
    | some s => { ti with track_size := ti.track_size - s.utf8ByteSize % 65536,
                          track_start := min (ti.track_start + 1) U16_MAX }
    | none => ti
  let ti : TrackInfo :=
    match sb.end_symbol with
    | some s => { ti with track_size := ti.track_size - s.utf8ByteSize % 65536,
                          track_end := ti.track_end - 1 }
    | none => ti
  ti

/-- Rust `f64::round` (half away from zero) followed by `as u16`
(saturating cast), for the non-negative rationals produced by the thumb
computation: `⌊q + 1/2⌋` capped at `u16::MAX`. -/
def roundAsU16 (q : ℚ) : Nat := min ⌊q + 1 / 2⌋.toNat U16_MAX

/-- The `(thumb_position, thumb_size)` pair computed inside
`Scrollbar::get_thumb_start_end` (lines 493-504): for zero content the pair
is `(0, track_size)`; otherwise `thumb_position` is
`round(position / content_size * track_size)` and `thumb_size` is
`round(viewport_size / (content_size + viewport_size) * track_size)`. -/
def Scrollbar.thumb_position_size (sb : Scrollbar) (area : Rect)
    (state : ScrollbarState) : Nat × Nat :=
  let ti := sb.get_track_info area
  if state.content_length = 0 then
    (0, ti.track_size)
  else
    let scroll_ratio : ℚ := (state.position : ℚ) / (state.content_length : ℚ)
    let thumb_position := roundAsU16 (scroll_ratio * (ti.track_size : ℚ))
    let thumb_ratio : ℚ :=
      (ti.viewport_size : ℚ) / ((state.content_length : ℚ) + (ti.viewport_size : ℚ))
    let thumb_size := roundAsU16 (thumb_ratio * (ti.track_size : ℚ))
    (thumb_position, thumb_size)

/-- `Scrollbar::get_thumb_start_end` (lines 485-510):
`thumb_start = (track_start + thumb_position).min(track_end.saturating_sub(thumb_size))`
and `thumb_end = (thumb_start + thumb_size).min(track_end)`. -/
def Scrollbar.get_thumb_start_end (sb : Scrollbar) (area : Rect)
    (state : ScrollbarState) : Nat × Nat :=
  let ti := sb.get_track_info area
  let ps := sb.thumb_position_size area state
  let thumb_start := min (ti.track_start + ps.1) (ti.track_end - ps.2)
  let thumb_end := min (thumb_start + ps.2) ti.track_end
  (thumb_start, thumb_end)

/-- The axis positions written by `Scrollbar::render_thumb` (lines 534-545):
the loop `for i in thumb_start..=thumb_end` writes the thumb symbol at every
position of the inclusive range. -/
def Scrollbar.render_thumb_cells (sb : Scrollbar) (area : Rect)
    (state : ScrollbarState) : List Nat :=
  let se := sb.get_thumb_start_end area state
  List.range' se.1 (se.2 + 1 - se.1)

/-- A horizontal-bottom scrollbar with begin and end symbols removed, as
built by the tests via
`Scrollbar::default().orientation(HorizontalBottom).begin_symbol(None).end_symbol(None)`. -/
def horizontalNoArrows : Scrollbar :=
  { orientation := ScrollbarOrientation.HorizontalBottom
    thumb_symbol := "█"
    track_symbol := some "═"
    begin_symbol := none
    end_symbol := none }

end TuiRs

namespace TuiRs

/-!
Embedding of `src/backend.rs`: the `ClearType` enum and the default
implementation of `Backend::clear_region`.  `std::io::Error` is embedded as
a kind (the subset of `std::io::ErrorKind` relevant here; the code
constructs `ErrorKind::Other`) together with its message; `io::Result<()>`
becomes `Except IOError Unit`.  The abstract `self.clear()` call of the
trait's default method is a parameter. -/

/-- `ClearType` (`backend.rs` lines 133-145). -/
inductive ClearType where
  | All
  | AfterCursor
  | BeforeCursor
  | CurrentLine
  | UntilNewLine
  deriving Repr, DecidableEq

/-- The `Debug` rendering of a `ClearType` value, as interpolated by
`format!("clear_type [{clear_type:?}] ...")`. -/
def ClearType.debugStr : ClearType → String
  | ClearType.All => "All"
  | ClearType.AfterCursor => "AfterCursor"
  | ClearType.BeforeCursor => "BeforeCursor"
  | ClearType.CurrentLine => "CurrentLine"
  | ClearType.UntilNewLine => "UntilNewLine"

/-- The subset of `std::io::ErrorKind` relevant here; the default
`clear_region` constructs `ErrorKind::Other`. -/
inductive IOErrorKind where
  | notFound
  | permissionDenied
  | interrupted
  | other
  deriving Repr, DecidableEq

/-- `std::io::Error`, as far as the embedded code observes it: a kind plus
a message (`io::Error::new(kind, msg)`). -/
structure IOError where
  kind : IOErrorKind
  msg : String
  deriving Repr, DecidableEq

/-- The error value `io::Error::new(io::ErrorKind::Other, format!("clear_type
[{clear_type:?}] not supported with this backend"))` built by the default
`clear_region` for an unsupported variant. -/
def unsupportedClearError (ct : ClearType) : IOError :=
  ⟨IOErrorKind.other, "clear_type [" ++ ct.debugStr ++ "] not supported with this backend"⟩

/-- The default `Backend::clear_region` (`backend.rs` lines 269-280):
`All` delegates to `self.clear()` (the `clear` parameter); the four other
variants return `Err(io::Error::new(ErrorKind::Other, ...))`. -/
def Backend.clear_region (clear : Except IOError Unit) :
    ClearType → Except IOError Unit
  | ClearType.All => clear
  | ClearType.AfterCursor => Except.error (unsupportedClearError ClearType.AfterCursor)
  | ClearType.BeforeCursor => Except.error (unsupportedClearError ClearType.BeforeCursor)
  | ClearType.CurrentLine => Except.error (unsupportedClearError ClearType.CurrentLine)
  | ClearType.UntilNewLine => Except.error (unsupportedClearError ClearType.UntilNewLine)

end TuiRs

namespace TuiRs

/-- **C7 counterexample** — the unsupported-variant failure is an ordinary
`io::Error` (kind `Other`, same `io::Error` type that carries I/O failures),
not a typed failure distinct from I/O errors: evaluated at `AfterCursor`. -/
theorem c7_counterexample :
    Backend.clear_region (Except.ok ()) ClearType.AfterCursor =
      Except.error ⟨IOErrorKind.other,
        "clear_type [AfterCursor] not supported with this backend"⟩ := by
  rfl

/-- **C7 (amended)** — for every behaviour of the backend's full clear, the
default `clear_region` delegates to it on `All` and returns an
`io::Error` with kind `Other` and a descriptive message for each of the four
other variants — an error in the same type as I/O failures, not a distinct
typed failure. -/
theorem c7_clear_region_default (clear : Except IOError Unit) :
    Backend.clear_region clear ClearType.All = clear ∧
    Backend.clear_region clear ClearType.AfterCursor =
      Except.error (unsupportedClearError ClearType.AfterCursor) ∧
    Backend.clear_region clear ClearType.BeforeCursor =
      Except.error (unsupportedClearError ClearType.BeforeCursor) ∧
    Backend.clear_region clear ClearType.CurrentLine =
      Except.error (unsupportedClearError ClearType.CurrentLine) ∧
    Backend.clear_region clear ClearType.UntilNewLine =
      Except.error (unsupportedClearError ClearType.UntilNewLine) ∧
    (unsupportedClearError ClearType.AfterCursor).kind = IOErrorKind.other :=
  ⟨rfl, rfl, rfl, rfl, rfl, rfl⟩

end TuiRs

namespace TuiRs

/-- **C8 counterexample** — for content length 10, position 5, over the
10-cell track of `Rect(0,0,10,1)` with no begin/end symbols, the computed
thumb is `(thumb_start, thumb_end) = (4, 9)` and the rendered thumb covers
six cells, not a third of the ten-cell track (neither 3 nor 4 cells), so the
thumb does not occupy the middle third. -/
theorem c8_counterexample :
    Scrollbar.get_thumb_start_end horizontalNoArrows (Rect.new 0 0 10 1) ⟨10, 5, 0⟩ = (4, 9) ∧
    (Scrollbar.render_thumb_cells horizontalNoArrows (Rect.new 0 0 10 1) ⟨10, 5, 0⟩).length = 6 ∧
    ¬ ((Scrollbar.render_thumb_cells horizontalNoArrows (Rect.new 0 0 10 1) ⟨10, 5, 0⟩).length = 3 ∨
       (Scrollbar.render_thumb_cells horizontalNoArrows (Rect.new 0 0 10 1) ⟨10, 5, 0⟩).length = 4) := by
  have h : Scrollbar.get_thumb_start_end horizontalNoArrows (Rect.new 0 0 10 1) ⟨10, 5, 0⟩ = (4, 9) := by
    norm_num [Scrollbar.get_thumb_start_end, Scrollbar.thumb_position_size,
      Scrollbar.get_track_info, roundAsU16, horizontalNoArrows,
      Scrollbar.is_vertical, U16_MAX, Rect.new]
    omega
  have hc : Scrollbar.render_thumb_cells horizontalNoArrows (Rect.new 0 0 10 1) ⟨10, 5, 0⟩ =
      List.range' 4 6 := by
    simp only [Scrollbar.render_thumb_cells, h]
  refine ⟨h, ?_, ?_⟩
  · rw [hc]; rfl
  · rw [hc]; decide

/-- **C8 (amended)** — for content length 10, position 5 over that 10-cell
track the proportional mapping yields `thumb_position = 5` and
`thumb_size = 5` (half the track, since the viewport size equals the content
length), and clamping against the track end moves the start back to 4, so
the thumb covers the six cells 4 through 9 — the right-hand part of the
track — rather than the middle third. -/
theorem c8_thumb_mapping :
    Scrollbar.thumb_position_size horizontalNoArrows (Rect.new 0 0 10 1) ⟨10, 5, 0⟩ = (5, 5) ∧
    Scrollbar.render_thumb_cells horizontalNoArrows (Rect.new 0 0 10 1) ⟨10, 5, 0⟩ =
      [4, 5, 6, 7, 8, 9] := by
  have hp : Scrollbar.thumb_position_size horizontalNoArrows (Rect.new 0 0 10 1) ⟨10, 5, 0⟩ = (5, 5) := by
    norm_num [Scrollbar.thumb_position_size, Scrollbar.get_track_info, roundAsU16,
      horizontalNoArrows, Scrollbar.is_vertical, U16_MAX, Rect.new]
    omega
  refine ⟨hp, ?_⟩
  have h : Scrollbar.get_thumb_start_end horizontalNoArrows (Rect.new 0 0 10 1) ⟨10, 5, 0⟩ = (4, 9) := by
    simp only [Scrollbar.get_thumb_start_end, hp]
    norm_num [Scrollbar.get_track_info, horizontalNoArrows, Scrollbar.is_vertical, Rect.new]
  simp only [Scrollbar.render_thumb_cells, h]
  rfl

/-- **C9** — the `ScrollbarState` navigation operations: `prev` decrements
saturating at zero, `first` jumps to zero, `last` jumps to
`content_length - 1` (saturating), `scroll` dispatches to `next`/`prev`;
`next` never moves past `content_length - 1` (in particular it stays at zero
when the content length is zero); and every operation maps a state with
`position ≤ content_length - 1` to a state satisfying the same bound with
`content_length` and `viewport_content_length` unchanged. -/
theorem c9_state_ops (s : ScrollbarState) (h : s.position ≤ s.content_length - 1) :
    (s.prev.position = s.position - 1 ∧ s.first.position = 0 ∧
      s.last.position = s.content_length - 1 ∧
      s.scroll ScrollDirection.Forward = s.next ∧
      s.scroll ScrollDirection.Backward = s.prev) ∧
    (s.prev.position ≤ s.content_length - 1 ∧ s.next.position ≤ s.content_length - 1 ∧
      s.first.position ≤ s.content_length - 1 ∧ s.last.position ≤ s.content_length - 1) ∧
    (s.prev.content_length = s.content_length ∧
      s.prev.viewport_content_length = s.viewport_content_length ∧
      s.next.content_length = s.content_length ∧
      s.next.viewport_content_length = s.viewport_content_length ∧
      s.first.content_length = s.content_length ∧
      s.first.viewport_content_length = s.viewport_content_length ∧
      s.last.content_length = s.content_length ∧
      s.last.viewport_content_length = s.viewport_content_length) := by
  refine ⟨⟨rfl, rfl, rfl, rfl, rfl⟩, ⟨?_, ?_, ?_, ?_⟩,
    rfl, rfl, rfl, rfl, rfl, rfl, rfl, rfl⟩ <;>
    simp only [ScrollbarState.prev, ScrollbarState.next, ScrollbarState.first,
      ScrollbarState.last, usizeSatAdd, USIZE_MAX] <;>
    omega

/-- **C9 witness** — the theorem applied at the state with content length 5,
position 3, viewport content length 7. -/
theorem c9_state_ops_witness :
    (ScrollbarState.next ⟨5, 3, 7⟩).position ≤ 5 - 1 ∧
    (ScrollbarState.prev ⟨5, 3, 7⟩).position = 3 - 1 ∧
    (ScrollbarState.prev ⟨5, 3, 7⟩).content_length = 5 := by
  have h := c9_state_ops ⟨5, 3, 7⟩ (by norm_num)
  exact ⟨h.2.1.2.1, h.1.1, h.2.2.1⟩

/-- **C10** — with zero content length the thumb computation yields
`(thumb_position, thumb_size) = (0, track_size)` for every scrollbar and
area, and rendering the no-arrow horizontal scrollbar over the non-empty
area `Rect(0,0,10,1)` with zero content length draws the thumb on every one
of the ten track cells instead of skipping rendering. -/
theorem c10_zero_content_full_track :
    (∀ (sb : Scrollbar) (area : Rect) (st : ScrollbarState),
      st.content_length = 0 →
      sb.thumb_position_size area st = (0, (sb.get_track_info area).track_size)) ∧
    Scrollbar.get_thumb_start_end horizontalNoArrows (Rect.new 0 0 10 1) ⟨0, 0, 0⟩ = (0, 9) ∧
    Scrollbar.render_thumb_cells horizontalNoArrows (Rect.new 0 0 10 1) ⟨0, 0, 0⟩ =
      List.range 10 := by
  refine ⟨?_, ?_, ?_⟩
  · intro sb area st hzero
    simp [Scrollbar.thumb_position_size, hzero]
  · rfl
  · rfl

/-- **C10 witness** — the zero-content branch evaluated at the no-arrow
horizontal scrollbar over `Rect(0,0,10,1)`. -/
theorem c10_zero_content_full_track_witness :
    Scrollbar.thumb_position_size horizontalNoArrows (Rect.new 0 0 10 1) ⟨0, 4, 0⟩ =
      (0, (Scrollbar.get_track_info horizontalNoArrows (Rect.new 0 0 10 1)).track_size) :=
  (c10_zero_content_full_track.1 horizontalNoArrows (Rect.new 0 0 10 1) ⟨0, 4, 0⟩ rfl)

end TuiRs

namespace TuiRs

/-!
Model of the constraint-based Layout Solver.

The solver's source file is not among the provided source files (only the
spec, sections 3, 4.2 and 8, describes it), so the definitions below are
modelled from the spec.  Concretely, for a 1-D problem of total length `L`
with `n` constraints, spacing `sp` and a flex mode:

* total spacing is `sp * (n - 1)`, capped at `L` in the degenerate case
  where it does not fit; the available length is `A = L - totalSpacing`;
* every non-`Fill` constraint contributes its desired length against `A`
  (`Length` exact, `Percentage`/`Ratio` the fraction of `A` rounded to
  nearest with the half-up bias the spec leaves open, `Min` its bound,
  `Max` its bound capped at `A`), `Fill` contributes zero;
* if the desired lengths overshoot `A` the segments are shrunk
  proportionally (the spec's class-by-class shrink order is abstracted into
  one proportional shrink — the tiling claim is independent of the order),
  with the rounding residual absorbed by the later segments so the lengths
  sum exactly to `A`;
* otherwise the remaining space `A - D` is shared among the `Fill`
  segments proportionally to cumulative weight, the residual going to the
  last `Fill`; any space still left (no `Fill` present) is the gap `G`
  placed by the flex mode: `Start` puts it after the segments, `End`
  before, `Center` splits it (extra cell to the trailing side),
  `SpaceBetween` spreads it over the inner spacers (over the leading and
  trailing gap when there are fewer than two segments), `SpaceAround`
  spreads it over all `n + 1` gaps;
* the resolved lengths are laid out from the area's origin along the axis,
  with the spacing-derived spacer between consecutive segments and the
  leading/trailing gap as spacer areas, every segment taking the full
  cross-axis extent.

All divisions are exact-by-telescoping: a quantity `T` spread over `k`
slots gives slot `i` the length `T*(i+1)/k - T*i/k`, so the slots sum to
`T` exactly — this is how the model realises the spec's "absorb any
residual rounding error ... so the sum of segment lengths plus spacing
exactly equals the available length".
-/

/-- `Constraint` (spec section 3): the closed set of sizing directives. -/
inductive Constraint where
  | Length (n : Nat)
  | Percentage (p : Nat)
  | Ratio (num den : Nat)
  | Min (n : Nat)
  | Max (n : Nat)
  | Fill (weight : Nat)
  deriving Repr, DecidableEq

/-- `Flex` mode (spec section 3). -/
inductive Flex where
  | Start
  | Center
  | End
  | SpaceBetween
  | SpaceAround
  deriving Repr, DecidableEq

/-- Layout direction. -/
inductive Direction where
  | Horizontal
  | Vertical
  deriving Repr, DecidableEq

/-- Modelled from the spec: the length a non-`Fill` constraint asks for
against available length `A` (`Fill` asks for nothing at this stage).
`Percentage`/`Ratio` round to nearest with the half-up bias. -/
def Constraint.desired (A : Nat) : Constraint → Nat
  | Constraint.Length n => n
  | Constraint.Percentage p => (p * A + 50) / 100
  | Constraint.Ratio num den => if den = 0 then 0 else (2 * num * A + den) / (2 * den)
  | Constraint.Min n => n
  | Constraint.Max n => min n A
  | Constraint.Fill _ => 0

/-- The `Fill` weight of a constraint (zero for non-`Fill`). -/
def Constraint.weight : Constraint → Nat
  | Constraint.Fill w => w
  | _ => 0

/-- Sum of the first `i` entries of a list (all of them when `i` exceeds
the length). -/
def cumSum : List Nat → Nat → Nat
  | _, 0 => 0
  | [], _ + 1 => 0
  | x :: rest, i + 1 => x + cumSum rest i

theorem cumSum_zero (xs : List Nat) : cumSum xs 0 = 0 := by
  cases xs <;> rfl

theorem cumSum_step (xs : List Nat) : ∀ i, cumSum xs i ≤ cumSum xs (i + 1) := by
  induction xs with
  | nil => intro i; cases i <;> simp [cumSum]
  | cons x rest ih =>
    intro i
    cases i with
    | zero => simp [cumSum, cumSum_zero]
    | succ j => simp only [cumSum]; exact Nat.add_le_add_left (ih j) x

theorem cumSum_le_sum (xs : List Nat) : ∀ i, cumSum xs i ≤ xs.sum := by
  induction xs with
  | nil => intro i; cases i <;> simp [cumSum]
  | cons x rest ih =>
    intro i
    cases i with
    | zero => simp [cumSum]
    | succ j => simpa [cumSum] using Nat.add_le_add_left (ih j) x

theorem cumSum_length (xs : List Nat) : cumSum xs xs.length = xs.sum := by
  induction xs with
  | nil => rfl
  | cons x rest ih => simpa [cumSum] using ih

/-- The telescoping differences of `f` over `0, 1, ..., n`. -/
def teleDiff (f : Nat → Nat) (n : Nat) : List Nat :=
  (List.range n).map (fun i => f (i + 1) - f i)

theorem teleDiff_length (f : Nat → Nat) (n : Nat) : (teleDiff f n).length = n := by
  simp [teleDiff]

theorem teleDiff_sum (f : Nat → Nat) (hf : ∀ i, f i ≤ f (i + 1)) (n : Nat) :
    (teleDiff f n).sum = f n - f 0 := by
  induction n with
  | zero => simp [teleDiff]
  | succ m ih =>
    have h0 : ∀ j, f 0 ≤ f j := by
      intro j
      induction j with
      | zero => exact Nat.le_refl _
      | succ k ihk => exact Nat.le_trans ihk (hf k)
    have hm := h0 m
    have hs := hf m
    simp only [teleDiff, List.range_succ, List.map_append, List.sum_append] at *
    simp only [List.map_cons, List.map_nil, List.sum_cons, List.sum_nil] at *
    omega

end TuiRs

namespace TuiRs

/-- Modelled from the spec (section 4.2, step 3): the resolved 1-D segment
lengths for available length `A`.  Over-constrained input is shrunk
proportionally and exactly to `A` by telescoping on cumulative desired
lengths; otherwise every constraint gets its desired length plus, for
`Fill` constraints, a share of the remaining space `R = A - D` telescoped
over cumulative weights (non-`Fill` constraints have weight zero, so their
share term vanishes and the last `Fill` absorbs the residual). -/
def segLengths (A : Nat) (cs : List Constraint) : List Nat :=
  let ds := cs.map (Constraint.desired A)
  let D := ds.sum
  if A < D then
    teleDiff (fun i => cumSum ds i * A / D) cs.length
  else
    let ws := cs.map Constraint.weight
    let W := ws.sum
    let R := A - D
    List.zipWith (fun d t => d + t) ds
      (teleDiff (fun i => R * cumSum ws i / W) cs.length)

theorem sum_zipWith_add :
    ∀ xs ys : List Nat, xs.length = ys.length →
      (List.zipWith (fun a b => a + b) xs ys).sum = xs.sum + ys.sum := by
  intro xs
  induction xs with
  | nil => intro ys h; cases ys <;> simp_all
  | cons x rest ih =>
    intro ys h
    cases ys with
    | nil => simp at h
    | cons y ys' =>
      simp only [List.zipWith_cons_cons, List.sum_cons]
      have := ih ys' (by simpa using h)
      omega

theorem segLengths_length (A : Nat) (cs : List Constraint) :
    (segLengths A cs).length = cs.length := by
  simp only [segLengths]
  split
  · simp [teleDiff_length]
  · simp [teleDiff_length]

theorem segLengths_sum_le (A : Nat) (cs : List Constraint) :
    (segLengths A cs).sum ≤ A := by
  simp only [segLengths]
  split
  · rename_i hover
    have hmono : ∀ i,
        cumSum (cs.map (Constraint.desired A)) i * A / (cs.map (Constraint.desired A)).sum ≤
        cumSum (cs.map (Constraint.desired A)) (i + 1) * A / (cs.map (Constraint.desired A)).sum :=
      fun i => Nat.div_le_div_right (Nat.mul_le_mul_right A (cumSum_step _ i))
    rw [teleDiff_sum _ hmono]
    simp only [cumSum_zero, Nat.zero_mul, Nat.zero_div, Nat.sub_zero]
    have hle : cumSum (cs.map (Constraint.desired A)) cs.length ≤
        (cs.map (Constraint.desired A)).sum := cumSum_le_sum _ _
    have hD : 0 < (cs.map (Constraint.desired A)).sum := by omega
    calc cumSum (cs.map (Constraint.desired A)) cs.length * A /
          (cs.map (Constraint.desired A)).sum
        ≤ (cs.map (Constraint.desired A)).sum * A / (cs.map (Constraint.desired A)).sum :=
          Nat.div_le_div_right (Nat.mul_le_mul_right A hle)
      _ = A := Nat.mul_div_cancel_left A hD
  · rename_i hunder
    have hmono : ∀ i,
        (A - (cs.map (Constraint.desired A)).sum) * cumSum (cs.map Constraint.weight) i /
          (cs.map Constraint.weight).sum ≤
        (A - (cs.map (Constraint.desired A)).sum) * cumSum (cs.map Constraint.weight) (i + 1) /
          (cs.map Constraint.weight).sum :=
      fun i => Nat.div_le_div_right (Nat.mul_le_mul_left _ (cumSum_step _ i))
    rw [sum_zipWith_add _ _ (by simp [teleDiff_length])]
    rw [teleDiff_sum _ hmono]
    simp only [cumSum_zero, Nat.mul_zero, Nat.zero_div, Nat.sub_zero]
    have hW : cumSum (cs.map Constraint.weight) cs.length ≤ (cs.map Constraint.weight).sum :=
      cumSum_le_sum _ _
    have hRW : (A - (cs.map (Constraint.desired A)).sum) *
        cumSum (cs.map Constraint.weight) cs.length / (cs.map Constraint.weight).sum ≤
        A - (cs.map (Constraint.desired A)).sum := by
      rcases Nat.eq_zero_or_pos (cs.map Constraint.weight).sum with h0 | hpos
      · simp [h0]
      · calc (A - (cs.map (Constraint.desired A)).sum) *
              cumSum (cs.map Constraint.weight) cs.length / (cs.map Constraint.weight).sum
            ≤ (A - (cs.map (Constraint.desired A)).sum) *
              (cs.map Constraint.weight).sum / (cs.map Constraint.weight).sum :=
              Nat.div_le_div_right (Nat.mul_le_mul_left _ hW)
          _ = A - (cs.map (Constraint.desired A)).sum := Nat.mul_div_cancel _ hpos
    omega

end TuiRs

namespace TuiRs

/-- Modelled from the spec: total inter-segment spacing, `spacing` for each
of the `n - 1` gaps between consecutive segments, capped at `L` in the
degenerate case where it does not fit. -/
def totalSpacing (L spacing n : Nat) : Nat := min (spacing * (n - 1)) L

/-- Modelled from the spec (section 4.2, step 4): the part of the leftover
gap `G` placed before the first segment. -/
def leadLen (flex : Flex) (G n : Nat) : Nat :=
  match flex with
  | Flex.Start => 0
  | Flex.Center => G / 2
  | Flex.End => G
  | Flex.SpaceBetween => 0
  | Flex.SpaceAround => G / (n + 1)

/-- Modelled from the spec (section 4.2, step 4): the part of the leftover
gap `G` spread over the `n - 1` inner spacers (`SpaceBetween` puts all of it
there when there are at least two segments; `SpaceAround` spreads `G` over
all `n + 1` gaps, so the inner spacers jointly receive the middle `n - 1`
shares of the telescoped split). -/
def innerExtra (flex : Flex) (G n : Nat) : Nat :=
  match flex with
  | Flex.SpaceBetween => if 2 ≤ n then G else 0
  | Flex.SpaceAround => G * n / (n + 1) - G / (n + 1)
  | _ => 0

/-- The part of the leftover gap placed after the last segment: whatever the
leading gap and the inner spacers do not take. -/
def trailLen (flex : Flex) (G n : Nat) : Nat :=
  G - (leadLen flex G n + innerExtra flex G n)

theorem innerExtra_of_le_one (flex : Flex) (G : Nat) :
    ∀ n, n ≤ 1 → innerExtra flex G n = 0 := by
  intro n hn
  cases flex <;> simp only [innerExtra]
  · rw [if_neg (by omega)]
  · cases n with
    | zero => simp
    | succ m =>
      have hm : m = 0 := by omega
      subst hm
      simp [Nat.mul_one]

theorem lead_inner_le (flex : Flex) (G n : Nat) :
    leadLen flex G n + innerExtra flex G n ≤ G := by
  cases flex <;> simp only [leadLen, innerExtra]
  · omega
  · omega
  · omega
  · split <;> omega
  · have h1 : G / (n + 1) ≤ G := Nat.div_le_self _ _
    have h2 : G * n / (n + 1) ≤ G := by
      calc G * n / (n + 1) ≤ G * (n + 1) / (n + 1) :=
            Nat.div_le_div_right (Nat.mul_le_mul_left G (Nat.le_succ n))
        _ = G := Nat.mul_div_cancel G (Nat.succ_pos n)
    omega

/-- Segment lengths and inner-spacer lengths interleaved in layout order;
`true` marks a segment, `false` a spacer. -/
def interleaveLens : List Nat → List Nat → List (Bool × Nat)
  | [], _ => []
  | s :: ss, [] => (true, s) :: interleaveLens ss []
  | s :: ss, g :: gs => (true, s) :: (false, g) :: interleaveLens ss gs

theorem interleave_snd_sum :
    ∀ ss gs : List Nat, gs.length = ss.length - 1 →
      ((interleaveLens ss gs).map Prod.snd).sum = ss.sum + gs.sum := by
  intro ss
  induction ss with
  | nil =>
    intro gs h
    have : gs = [] := List.eq_nil_of_length_eq_zero (by simpa using h)
    subst this
    simp [interleaveLens]
  | cons s ss' ih =>
    intro gs h
    cases gs with
    | nil =>
      cases ss' with
      | nil => simp [interleaveLens]
      | cons t ts' => simp at h
    | cons g gs' =>
      have h' : gs'.length = ss'.length - 1 := by
        simp only [List.length_cons] at h
        omega
      have hlen : 1 ≤ ss'.length := by
        simp only [List.length_cons] at h
        omega
      simp only [interleaveLens, List.map_cons, List.sum_cons]
      have := ih gs' h'
      omega

/-- Modelled from the spec (section 4.2, steps 3-5): the full interleaved
list of piece lengths for a 1-D split — leading spacer, segments with the
inner spacers between them, trailing spacer.  `true` marks a segment. -/
def pieceLens (L spacing : Nat) (flex : Flex) (cs : List Constraint) : List (Bool × Nat) :=
  let n := cs.length
  let ts := totalSpacing L spacing n
  let A := L - ts
  let segs := segLengths A cs
  let G := A - segs.sum
  let innerTotal := ts + innerExtra flex G n
  let inners := teleDiff (fun i => innerTotal * i / (n - 1)) (n - 1)
  (false, leadLen flex G n) :: (interleaveLens segs inners ++ [(false, trailLen flex G n)])

theorem pieceLens_snd_sum (L spacing : Nat) (flex : Flex) (cs : List Constraint) :
    ((pieceLens L spacing flex cs).map Prod.snd).sum = L := by
  have hts : totalSpacing L spacing cs.length ≤ L := min_le_right _ _
  have hts0 : cs.length ≤ 1 → totalSpacing L spacing cs.length = 0 := by
    intro h
    have : cs.length - 1 = 0 := by omega
    simp [totalSpacing, this]
  have hlen : (segLengths (L - totalSpacing L spacing cs.length) cs).length = cs.length :=
    segLengths_length _ _
  have hsegsum : (segLengths (L - totalSpacing L spacing cs.length) cs).sum ≤
      L - totalSpacing L spacing cs.length := segLengths_sum_le _ _
  simp only [pieceLens, List.map_cons, List.sum_cons, List.map_append, List.sum_append,
    List.map_nil, List.sum_nil]
  have hinner :
      ((teleDiff (fun i => (totalSpacing L spacing cs.length +
          innerExtra flex (L - totalSpacing L spacing cs.length -
            (segLengths (L - totalSpacing L spacing cs.length) cs).sum) cs.length) * i /
          (cs.length - 1)) (cs.length - 1)).sum) =
      totalSpacing L spacing cs.length +
        innerExtra flex (L - totalSpacing L spacing cs.length -
          (segLengths (L - totalSpacing L spacing cs.length) cs).sum) cs.length := by
    rcases Nat.eq_zero_or_pos (cs.length - 1) with hk | hk
    · rw [hk]
      have h1 : cs.length ≤ 1 := by omega
      rw [hts0 h1, innerExtra_of_le_one _ _ _ h1]
      simp [teleDiff]
    · rw [teleDiff_sum _ (fun i => Nat.div_le_div_right
        (Nat.mul_le_mul_left _ (Nat.le_succ i)))]
      simp only [Nat.mul_zero, Nat.zero_div, Nat.sub_zero]
      exact Nat.mul_div_cancel _ hk
  have hint := interleave_snd_sum
    (segLengths (L - totalSpacing L spacing cs.length) cs)
    (teleDiff (fun i => (totalSpacing L spacing cs.length +
        innerExtra flex (L - totalSpacing L spacing cs.length -
          (segLengths (L - totalSpacing L spacing cs.length) cs).sum) cs.length) * i /
        (cs.length - 1)) (cs.length - 1))
    (by rw [teleDiff_length, hlen])
  rw [hint, hinner]
  have hle := lead_inner_le flex
    (L - totalSpacing L spacing cs.length -
      (segLengths (L - totalSpacing L spacing cs.length) cs).sum) cs.length
  simp only [trailLen]
  omega

end TuiRs

namespace TuiRs

/-- Lay the interleaved piece lengths out from `pos`, accumulating the start
coordinate (spec section 4.2, step 5). -/
def placePieces (pos : Nat) : List (Bool × Nat) → List (Bool × Nat × Nat)
  | [] => []
  | (b, l) :: rest => (b, pos, l) :: placePieces (pos + l) rest

/-- `TilesFrom pos pieces L`: the pieces `(flag, start, len)`, laid
end-to-end starting at `pos`, tile the interval of length `L` exactly —
each piece starts where the previous one ended (no gap, no overlap) and the
lengths consume `L` completely. -/
def TilesFrom (pos : Nat) : List (Bool × Nat × Nat) → Nat → Prop
  | [], L => L = 0
  | (_, s, l) :: rest, L => s = pos ∧ l ≤ L ∧ TilesFrom (pos + l) rest (L - l)

theorem placePieces_tiles :
    ∀ (lens : List (Bool × Nat)) (pos L : Nat),
      (lens.map Prod.snd).sum = L → TilesFrom pos (placePieces pos lens) L := by
  intro lens
  induction lens with
  | nil =>
    intro pos L h
    simp only [List.map_nil, List.sum_nil] at h
    simpa [placePieces, TilesFrom] using h.symm
  | cons p rest ih =>
    obtain ⟨b, l⟩ := p
    intro pos L h
    simp only [List.map_cons, List.sum_cons] at h
    simp only [placePieces, TilesFrom]
    exact ⟨by trivial, by omega, ih (pos + l) (L - l) (by omega)⟩

theorem placePieces_starts_ge :
    ∀ (lens : List (Bool × Nat)) (pos : Nat) (q : Bool × Nat × Nat),
      q ∈ placePieces pos lens → pos ≤ q.2.1 := by
  intro lens
  induction lens with
  | nil => intro pos q h; simp [placePieces] at h
  | cons p rest ih =>
    obtain ⟨b, l⟩ := p
    intro pos q h
    simp only [placePieces, List.mem_cons] at h
    rcases h with h | h
    · subst h; exact Nat.le_refl _
    · exact Nat.le_trans (Nat.le_add_right pos l) (ih (pos + l) q h)

theorem placePieces_pairwise :
    ∀ (lens : List (Bool × Nat)) (pos : Nat),
      (placePieces pos lens).Pairwise (fun p q => p.2.1 + p.2.2 ≤ q.2.1) := by
  intro lens
  induction lens with
  | nil => intro pos; simp [placePieces]
  | cons p rest ih =>
    obtain ⟨b, l⟩ := p
    intro pos
    simp only [placePieces]
    refine List.Pairwise.cons ?_ (ih (pos + l))
    intro q hq
    exact placePieces_starts_ge rest (pos + l) q hq

/-- The start coordinate of a rect along the layout axis. -/
def axisStart (dir : Direction) (r : Rect) : Nat :=
  match dir with
  | Direction.Horizontal => r.x
  | Direction.Vertical => r.y

/-- The extent of a rect along the layout axis. -/
def axisLen (dir : Direction) (r : Rect) : Nat :=
  match dir with
  | Direction.Horizontal => r.width
  | Direction.Vertical => r.height

/-- A 1-D piece mapped back to an absolute rect: full cross-axis extent of
the input area, the piece's start and length along the layout axis (spec
section 4.2, steps 1 and 5). -/
def pieceRect (dir : Direction) (area : Rect) (pos len : Nat) : Rect :=
  match dir with
  | Direction.Horizontal => Rect.new pos area.y len area.height
  | Direction.Vertical => Rect.new area.x pos area.width len

/-- Modelled from the spec: the Layout Solver's output with spacers — the
interleaved sequence of sub-areas (`true`) and spacer areas (`false`)
covering `area` along `dir`. -/
def split_with_spacers (area : Rect) (dir : Direction) (spacing : Nat) (flex : Flex)
    (cs : List Constraint) : List (Bool × Rect) :=
  (placePieces (axisStart dir area) (pieceLens (axisLen dir area) spacing flex cs)).map
    (fun p => (p.1, pieceRect dir area p.2.1 p.2.2))

/-- The sub-areas (one per constraint), in input order. -/
def layout_segments (area : Rect) (dir : Direction) (spacing : Nat) (flex : Flex)
    (cs : List Constraint) : List Rect :=
  ((split_with_spacers area dir spacing flex cs).filter (fun p => p.1)).map Prod.snd

/-- The spacer areas, in layout order. -/
def layout_spacers (area : Rect) (dir : Direction) (spacing : Nat) (flex : Flex)
    (cs : List Constraint) : List Rect :=
  ((split_with_spacers area dir spacing flex cs).filter (fun p => !p.1)).map Prod.snd

/-- Sanity checks of the model against the spec's worked examples: equal
fills split 10 as 5+5, fills 1:2 split 9 as 3+6, two `Length(8)` over 10
shrink to 5+5, and one `Length(4)` centered in 10 starts at offset 3. -/
theorem layout_spec_examples :
    segLengths 10 [Constraint.Fill 1, Constraint.Fill 1] = [5, 5] ∧
    segLengths 9 [Constraint.Fill 1, Constraint.Fill 2] = [3, 6] ∧
    segLengths 10 [Constraint.Length 8, Constraint.Length 8] = [5, 5] ∧
    pieceLens 10 0 Flex.Center [Constraint.Length 4] =
      [(false, 3), (true, 4), (false, 3)] := by
  refine ⟨?_, ?_, ?_, ?_⟩ <;> rfl

/-- **C1** — tiling invariant of the Layout Solver (modelled from the spec):
for every input area, direction, spacing, flex mode and constraint list,
the sub-areas and spacer areas, projected onto the layout axis and laid
end-to-end, exactly reconstruct the area's length along that axis starting
at its origin, with no gap between consecutive pieces and no overlap
between any two pieces (every earlier piece ends at or before every later
piece's start). -/
theorem c1_layout_tiling (area : Rect) (dir : Direction) (spacing : Nat) (flex : Flex)
    (cs : List Constraint) :
    TilesFrom (axisStart dir area)
      ((split_with_spacers area dir spacing flex cs).map
        (fun p => (p.1, axisStart dir p.2, axisLen dir p.2)))
      (axisLen dir area) ∧
    ((split_with_spacers area dir spacing flex cs).map
        (fun p => (p.1, axisStart dir p.2, axisLen dir p.2))).Pairwise
      (fun p q => p.2.1 + p.2.2 ≤ q.2.1) := by
  have hcomp : ((fun p : Bool × Rect => (p.1, axisStart dir p.2, axisLen dir p.2)) ∘
      (fun p : Bool × Nat × Nat => (p.1, pieceRect dir area p.2.1 p.2.2))) =
      fun p : Bool × Nat × Nat => p := by
    funext p
    cases dir <;> rfl
  have hmap : (split_with_spacers area dir spacing flex cs).map
      (fun p => (p.1, axisStart dir p.2, axisLen dir p.2)) =
      placePieces (axisStart dir area) (pieceLens (axisLen dir area) spacing flex cs) := by
    rw [split_with_spacers, List.map_map, hcomp]
    exact List.map_id' _
  rw [hmap]
  exact ⟨placePieces_tiles _ _ _ (pieceLens_snd_sum _ _ _ _), placePieces_pairwise _ _⟩

end TuiRs
